import Mathlib

/-!
Verification of the amazoncaptcha solving pipeline (`amazoncaptcha/solver.py`)
against its natural-language specification.

The pipeline is embedded shallowly:
* images are pixel grids (`Img`), with grayscale intensities as `Nat`;
* `monochrome` embeds `AmazonCaptcha._monochrome`;
* `findLettersFromRaw` embeds the list-level logic of
  `AmazonCaptcha._find_letters` (fallback, seven-box merge, border trim),
  taking as input the letters cropped from the raw letter boxes;
* `saveLetter` embeds `AmazonCaptcha._save_letters` for a single glyph,
  with the external compressor (`zlib.compress` followed by `str`)
  abstracted as a function parameter;
* `translateAux`/`translate` embed `AmazonCaptcha._translate`;
* `fromlink` and `solve` embed the class method and orchestrator.

Helpers from the repository's `utils` module (`cut_the_white`,
`merge_horizontally`, `find_letter_boxes`) are not part of the provided
source tree; where needed they are modelled from the specification and
marked as such in their doc comments.
-/

/-- Threshold constant `MONOWEIGHT` from `solver.py`. -/
def MONOWEIGHT : Nat := 1

/-- Constant `MAXIMUM_LETTER_LENGTH` from `solver.py`. -/
def MAXIMUM_LETTER_LENGTH : Nat := 33

/-- Constant `MINIMUM_LETTER_LENGTH` from `solver.py`. -/
def MINIMUM_LETTER_LENGTH : Nat := 14

/-- Constant `SUPPORTED_CONTENT_TYPES` from `solver.py`. -/
def SUPPORTED_CONTENT_TYPES : List String := ["image/jpeg"]

/-- A grayscale image: a `width` × `height` grid of intensities stored
row-major, as PIL's `getdata` exposes it. -/
structure Img where
  width : Nat
  height : Nat
  pixels : List Nat
deriving DecidableEq, Repr

/-- The empty image, used as a harmless default for partial list lookups
(the Python code never reaches those defaults on its actual control paths). -/
def blankImg : Img := ⟨0, 0, []⟩

/-- Pixel at row `r`, column `c` (default 0 out of range). -/
def Img.pix (img : Img) (r c : Nat) : Nat :=
  img.pixels.getD (r * img.width + c) 0

/-- Row `i` of the image as a list of intensities. -/
def Img.row (img : Img) (i : Nat) : List Nat :=
  (img.pixels.drop (i * img.width)).take img.width

/-- Embedding of `AmazonCaptcha._monochrome`: after conversion to
single-channel grayscale, every pixel code at most `MONOWEIGHT` becomes 0
and every other pixel becomes 255 (`Image.eval` maps the function over
every pixel). -/
def monochrome (img : Img) : Img :=
  { img with pixels := img.pixels.map (fun a => if a ≤ MONOWEIGHT then 0 else 255) }

/-- Embedding of PIL's `Image.crop((l, t, r, b))`: the sub-grid of columns
`[l, r)` and rows `[t, b)`. -/
def Img.crop (img : Img) (l t r b : Nat) : Img :=
  ⟨r - l, b - t,
   ((List.range (b - t)).map (fun i => ((img.row (t + i)).drop l).take (r - l))).flatten⟩

/-- Embedding of `Image.new("L", (w, h))`: PIL initialises every pixel to
color code 0. -/
def newL (w h : Nat) : Img :=
  ⟨w, h, List.replicate (w * h) 0⟩

/-- A pixel is background when it carries the code 255 ("off"); after
`monochrome` the only other code is 0 (foreground, "on"). -/
def bgPix (p : Nat) : Bool := p == 255

/-- Row `r` contains at least one non-background pixel. -/
def rowHasFg (img : Img) (r : Nat) : Bool :=
  (List.range img.width).any (fun c => ! bgPix (img.pix r c))

/-- Column `c` contains at least one non-background pixel. -/
def colHasFg (img : Img) (c : Nat) : Bool :=
  (List.range img.height).any (fun r => ! bgPix (img.pix r c))

/-- Modelled from the spec: `cut_the_white` from the repository's `utils`
module is not in the provided sources. Per the spec it trims uniform
all-background border rows and columns until every border row/column has a
foreground pixel, i.e. it crops to the bounding box of the non-background
pixels, degenerating to an empty bitmap when the glyph is all background. -/
def cutTheWhite (img : Img) : Img :=
  let rs := (List.range img.height).filter (fun r => rowHasFg img r)
  let cs := (List.range img.width).filter (fun c => colHasFg img c)
  if rs.isEmpty || cs.isEmpty then blankImg
  else img.crop (cs.headD 0) (rs.headD 0) (cs.getLastD 0 + 1) (rs.getLastD 0 + 1)

/-- Modelled from the spec: `merge_horizontally` from the repository's
`utils` module is not in the provided sources. Per the spec it horizontally
concatenates its first argument's bitmap with its second argument's bitmap
(first argument on the left). -/
def mergeHorizontally (a b : Img) : Img :=
  ⟨a.width + b.width, a.height,
   ((List.range a.height).map (fun i => a.row i ++ b.row i)).flatten⟩

/-- The fallback guard of `AmazonCaptcha._find_letters`, with Python's
short-circuiting `and`/`or`:
`(len(letters) == 6 and letters[0].width < MINIMUM_LETTER_LENGTH) or
 (len(letters) != 6 and len(letters) != 7)`. -/
def fallbackCond (letters : List Img) : Bool :=
  (letters.length == 6 && decide ((letters.headD blankImg).width < MINIMUM_LETTER_LENGTH))
    || (letters.length != 6 && letters.length != 7)

/-- The fallback substitution of `AmazonCaptcha._find_letters`:
`letters = [Image.new("L", (200, 70)) for i in range(6)]` when the guard
fires. -/
def applyFallback (letters : List Img) : List Img :=
  if fallbackCond letters then List.replicate 6 (newL 200 70) else letters

/-- The seven-box wrap correction of `AmazonCaptcha._find_letters`:
`letters[6] = merge_horizontally(letters[6], letters[0]); del letters[0]`. -/
def applySevenMerge (letters : List Img) : List Img :=
  if letters.length = 7 then
    (letters.set 6 (mergeHorizontally (letters.getD 6 blankImg) (letters.getD 0 blankImg))).drop 1
  else letters

/-- Embedding of the list-level logic of `AmazonCaptcha._find_letters`
(lines 71–79 of `solver.py`), applied to the letters already cropped from
the raw letter boxes: fallback to six fresh 200×70 images, then the
seven-box correction, then `cut_the_white` on every letter. -/
def findLettersFromRaw (letters : List Img) : List Img :=
  (applySevenMerge (applyFallback letters)).map cutTheWhite

/-- Embedding of the bit-string built by `AmazonCaptcha._save_letters`:
`"".join(["1" if pix == 0 else "0" for pix in letter_data])` over the
row-major pixel data. -/
def toBitString (pixels : List Nat) : String :=
  String.mk (pixels.map (fun p => if p == 0 then '1' else '0'))

/-- Embedding of `AmazonCaptcha._save_letters` for one glyph. The external
step `str(zlib.compress(s.encode("utf-8")))` is abstracted as the parameter
`compress`; the spec requires it to be a deterministic lossless
compression, which makes it injective. -/
def saveLetter (compress : String → String) (img : Img) : String :=
  compress (toBitString img.pixels)

/-- The inner loop of `AmazonCaptcha._translate`: scan the alphabet in its
fixed order and return the first symbol whose stored signature set contains
the glyph's signature (`if pseudo_binary in data: ... break`), or `none`
when the loop falls through to its `else` clause. The training corpus
(symbol → its known signatures) is the `corpus` parameter; its on-disk JSON
files are not part of the provided sources. -/
def matchLetter (alphabet : List String) (corpus : String → List String)
    (sg : String) : Option String :=
  alphabet.find? (fun letter => (corpus letter).contains sg)

/-- Embedding of the outer loop of `AmazonCaptcha._translate`. `acc` holds
the resolved symbols so far (reversed), mirroring `self.result`; `ev` holds
the signatures whose loop iteration has run (reversed), making the set of
evaluated positions observable. On an unresolved glyph with `devmode`
false the loop returns the sentinel at once, so later positions never run. -/
def translateAux (devmode : Bool) (alphabet : List String)
    (corpus : String → List String) :
    List String → List String → List String → String × List String
  | [], acc, ev => (String.join acc.reverse, ev.reverse)
  | sg :: rest, acc, ev =>
    match matchLetter alphabet corpus sg with
    | some letter => translateAux devmode alphabet corpus rest (letter :: acc) (sg :: ev)
    | none =>
      if devmode then translateAux devmode alphabet corpus rest ("-" :: acc) (sg :: ev)
      else ("Not solved", (sg :: ev).reverse)

/-- Result string of `AmazonCaptcha._translate` on the glyph signatures in
place order (`"".join(self.result.values())` or the sentinel). -/
def translateResult (devmode : Bool) (alphabet : List String)
    (corpus : String → List String) (sigs : List String) : String :=
  (translateAux devmode alphabet corpus sigs [] []).1

/-- The signatures whose positions `AmazonCaptcha._translate` actually
evaluated against the corpus, in evaluation order. -/
def translateEvaluated (devmode : Bool) (alphabet : List String)
    (corpus : String → List String) (sigs : List String) : List String :=
  (translateAux devmode alphabet corpus sigs [] []).2

/-- The state an `AmazonCaptcha.__init__` call produces: the opened image
and the `devmode` flag (the constructor's `image_link` parameter is read
but never stored). -/
structure CaptchaState where
  img : Img
  devmode : Bool
deriving DecidableEq, Repr

/-- Embedding of `AmazonCaptcha.__init__(img, image_link=None, devmode=False)`.
Python is untyped, so the ignored `image_link` slot accepts any value;
its type is a parameter here. -/
def captchaInit {α : Type} (img : Img) (image_link : α) (devmode : Bool) :
    CaptchaState :=
  ⟨img, devmode⟩

/-- Embedding of `AmazonCaptcha.fromlink`: the fetched response is the pair
of its declared content type and decoded body. An unsupported content type
raises `ContentTypeError` carrying the content type, before anything else
happens; otherwise the constructor is called as `cls(image_bytes_array, devmode)`,
which passes `devmode` positionally into the `image_link` slot. -/
def fromlink (image_link : String) (contentType : String) (content : Img)
    (devmode : Bool) : Except String CaptchaState :=
  if SUPPORTED_CONTENT_TYPES.contains contentType = false then
    Except.error contentType
  else
    Except.ok (captchaInit content devmode false)

/-- Embedding of `AmazonCaptcha.solve`: monochrome, letter extraction
(`find_letter_boxes` is in the absent `utils` module, so the box finder is
the parameter `findBoxes`; each box is cropped with the full image height),
signature encoding, translation, and the logging side effect, returned as
the pair of the solution and the optional `(path, text)` appended to the
log file (`f.write("\n")`). -/
def solve (findBoxes : Img → Nat → List (Nat × Nat))
    (compress : String → String) (alphabet : List String)
    (corpus : String → List String) (st : CaptchaState)
    (keep_logs : Bool) (logs_path : String) : String × Option (String × String) :=
  let img := monochrome st.img
  let letters := findLettersFromRaw
    ((findBoxes img MAXIMUM_LETTER_LENGTH).map (fun box => img.crop box.1 0 box.2 img.height))
  let sigs := letters.map (saveLetter compress)
  let solution := translateResult st.devmode alphabet corpus sigs
  if solution = "Not solved" ∧ keep_logs = true then (solution, some (logs_path, "\n"))
  else (solution, none)

lemma pix_newL (w h r c : Nat) : (newL w h).pix r c = 0 := by
  simp only [newL, Img.pix, List.getD_eq_getElem?_getD, List.getElem?_replicate]
  split <;> rfl

lemma rowHasFg_newL (w h : Nat) (hw : 0 < w) (r : Nat) :
    rowHasFg (newL w h) r = true := by
  simp only [rowHasFg, newL, List.any_eq_true]
  exact ⟨0, List.mem_range.2 hw, by simp [pix_newL, bgPix, newL, Img.pix]⟩

lemma colHasFg_newL (w h : Nat) (hh : 0 < h) (c : Nat) :
    colHasFg (newL w h) c = true := by
  simp only [colHasFg, newL, List.any_eq_true]
  exact ⟨0, List.mem_range.2 hh, by simp [pix_newL, bgPix, newL, Img.pix]⟩

lemma headD_range (n : Nat) : (List.range n).headD 0 = 0 := by
  cases n with
  | zero => rfl
  | succ m => rw [List.range_succ_eq_map]; rfl

lemma getLastD_range (n : Nat) (hn : 0 < n) : (List.range n).getLastD 0 = n - 1 := by
  cases n with
  | zero => omega
  | succ m => rw [List.range_succ, List.getLastD_concat]; omega

lemma flatten_all_replicate (L : List (List Nat)) (w : Nat)
    (h : ∀ l ∈ L, l = List.replicate w 0) :
    L.flatten = List.replicate (L.length * w) 0 := by
  induction L with
  | nil => simp
  | cons a t ih =>
    rw [List.flatten_cons, h a (List.mem_cons_self a t),
      ih (fun l hl => h l (List.mem_cons_of_mem a hl)), ← List.replicate_add]
    simp only [List.length_cons]
    congr 1
    ring

lemma row_newL (w h i : Nat) (hi : i < h) :
    (newL w h).row i = List.replicate w 0 := by
  have h1 : i * w + w ≤ w * h := by
    calc i * w + w = (i + 1) * w := by ring
      _ ≤ h * w := Nat.mul_le_mul_right w (Nat.succ_le_of_lt hi)
      _ = w * h := Nat.mul_comm h w
  simp only [newL, Img.row, List.drop_replicate, List.take_replicate]
  congr 1
  have : w ≤ w * h - i * w := Nat.le_sub_of_add_le (by omega)
  omega

lemma cutTheWhite_newL (w h : Nat) (hw : 0 < w) (hh : 0 < h) :
    cutTheWhite (newL w h) = newL w h := by
  have hrs : (List.range (newL w h).height).filter (fun r => rowHasFg (newL w h) r)
      = List.range h := by
    show (List.range h).filter _ = List.range h
    exact List.filter_eq_self.2 (fun r _ => rowHasFg_newL w h hw r)
  have hcs : (List.range (newL w h).width).filter (fun c => colHasFg (newL w h) c)
      = List.range w := by
    show (List.range w).filter _ = List.range w
    exact List.filter_eq_self.2 (fun c _ => colHasFg_newL w h hh c)
  have hre : ∀ n, 0 < n → (List.range n).isEmpty = false := by
    intro n hn
    rw [List.isEmpty_eq_false_iff_exists_mem]
    exact ⟨0, List.mem_range.2 hn⟩
  rw [cutTheWhite]
  simp only [hrs, hcs, hre w hw, hre h hh, Bool.or_self, if_neg (by simp : ¬ false = true)]
  rw [headD_range, headD_range, getLastD_range w hw, getLastD_range h hh]
  have hw1 : w - 1 + 1 = w := by omega
  have hh1 : h - 1 + 1 = h := by omega
  rw [hw1, hh1]
  show Img.crop (newL w h) 0 0 w h = newL w h
  rw [Img.crop]
  simp only [Nat.sub_zero, Nat.zero_add, List.drop_zero]
  have hmap : ∀ i ∈ List.range h, ((newL w h).row i).take w = List.replicate w 0 := by
    intro i hi
    rw [row_newL w h i (List.mem_range.1 hi), List.take_replicate]
    congr 1
    omega
  rw [List.map_congr_left hmap]
  have hfl : ((List.range h).map (fun _ => List.replicate w 0)).flatten
      = List.replicate (h * w) 0 := by
    rw [flatten_all_replicate _ w (by intro l hl; rcases List.mem_map.1 hl with ⟨i, _, rfl⟩; rfl)]
    congr 1
    simp
  rw [hfl, newL, Nat.mul_comm h w]

lemma findLettersFromRaw_nil :
    findLettersFromRaw [] = List.replicate 6 (newL 200 70) := by
  have : findLettersFromRaw [] = (List.replicate 6 (newL 200 70)).map cutTheWhite := rfl
  rw [this, List.map_replicate, cutTheWhite_newL 200 70 (by norm_num) (by norm_num)]

/-- C7: normalization maps every pixel with intensity at most `MONOWEIGHT`
(1) to 0 (foreground) and every other pixel to 255 (background), and
afterwards every pixel of the bitmap is exactly one of the two values 0 and
255. -/
theorem monochrome_binary (img : Img) :
    (monochrome img).pixels.length = img.pixels.length
    ∧ (∀ i, i < img.pixels.length →
        (img.pixels.getD i 0 ≤ MONOWEIGHT → (monochrome img).pixels.getD i 255 = 0)
        ∧ (MONOWEIGHT < img.pixels.getD i 0 → (monochrome img).pixels.getD i 255 = 255))
    ∧ (∀ p ∈ (monochrome img).pixels, p = 0 ∨ p = 255) := by
  refine ⟨by simp [monochrome], fun i hi => ?_, fun p hp => ?_⟩
  · have hv : img.pixels[i]? = some img.pixels[i] := List.getElem?_eq_getElem hi
    have hd : img.pixels.getD i 0 = img.pixels[i] := by
      rw [List.getD_eq_getElem?_getD, hv]
      rfl
    have hm : (monochrome img).pixels.getD i 255
        = if img.pixels[i] ≤ MONOWEIGHT then 0 else 255 := by
      simp only [monochrome]
      rw [List.getD_eq_getElem?_getD, List.getElem?_map, hv]
      rfl
    rw [hd, hm]
    constructor <;> intro h
    · rw [if_pos h]
    · rw [if_neg (by omega)]
  · simp only [monochrome] at hp
    rcases List.mem_map.1 hp with ⟨a, _, rfl⟩
    by_cases h : a ≤ MONOWEIGHT
    · left
      rw [if_pos h]
    · right
      rw [if_neg h]

/-- Witness for C7 at the concrete image `⟨2, 1, [1, 200]⟩`. -/
theorem monochrome_binary_witness :
    (monochrome ⟨2, 1, [1, 200]⟩).pixels.getD 0 255 = 0
    ∧ (monochrome ⟨2, 1, [1, 200]⟩).pixels.getD 1 255 = 255 :=
  ⟨((monochrome_binary ⟨2, 1, [1, 200]⟩).2.1 0 (by decide)).1 (by decide),
   ((monochrome_binary ⟨2, 1, [1, 200]⟩).2.1 1 (by decide)).2 (by decide)⟩

/-- C1: the signature encoder is deterministic, and injective on monochrome
glyph bitmaps of equal dimensions: if the compressor (the spec's
deterministic lossless compression) is injective, then two well-formed
two-level bitmaps of the same dimensions that differ in at least one pixel
receive different signatures. -/
theorem encode_deterministic_and_injective
    (compress : String → String) (hc : Function.Injective compress)
    (i1 i2 : Img)
    (hb1 : ∀ p ∈ i1.pixels, p = 0 ∨ p = 255)
    (hb2 : ∀ p ∈ i2.pixels, p = 0 ∨ p = 255)
    (hw : i1.width = i2.width) (hh : i1.height = i2.height)
    (hl1 : i1.pixels.length = i1.width * i1.height)
    (hl2 : i2.pixels.length = i2.width * i2.height)
    (hdiff : ∃ i : Nat, i1.pixels[i]? ≠ i2.pixels[i]?) :
    (∀ g : Img, saveLetter compress g = saveLetter compress g)
    ∧ saveLetter compress i1 ≠ saveLetter compress i2 := by
  refine ⟨fun g => rfl, fun hEq => ?_⟩
  have hbits : toBitString i1.pixels = toBitString i2.pixels := hc hEq
  have hmaps : i1.pixels.map (fun p => if p == 0 then '1' else '0')
      = i2.pixels.map (fun p => if p == 0 then '1' else '0') := by
    have := congrArg String.data hbits
    simpa [toBitString] using this
  obtain ⟨i, hi⟩ := hdiff
  have hlen : i1.pixels.length = i2.pixels.length := by rw [hl1, hl2, hw, hh]
  by_cases hlt : i < i1.pixels.length
  · have hlt2 : i < i2.pixels.length := hlen ▸ hlt
    have h1 : i1.pixels[i]? = some i1.pixels[i] := List.getElem?_eq_getElem hlt
    have h2 : i2.pixels[i]? = some i2.pixels[i] := List.getElem?_eq_getElem hlt2
    have hne : i1.pixels[i] ≠ i2.pixels[i] := by
      intro h
      exact hi (by rw [h1, h2, h])
    have hbit := congrArg (fun l : List Char => l[i]?) hmaps
    simp only [List.getElem?_map, h1, h2, Option.map_some'] at hbit
    have hbit' : (if i1.pixels[i] == 0 then '1' else '0')
        = (if i2.pixels[i] == 0 then '1' else '0') := by
      exact Option.some.inj hbit
    rcases hb1 _ (List.getElem_mem hlt) with e1 | e1 <;>
      rcases hb2 _ (List.getElem_mem hlt2) with e2 | e2 <;>
      rw [e1, e2] at hbit' hne <;> simp at hbit' hne
  · have n1 : i1.pixels[i]? = none := List.getElem?_eq_none (by omega)
    have n2 : i2.pixels[i]? = none := List.getElem?_eq_none (by omega)
    exact hi (by rw [n1, n2])

/-- Witness for C1: the identity compressor is injective, and the two 1×1
bitmaps differing in their single pixel receive different signatures. -/
theorem encode_injective_witness :
    Function.Injective (id : String → String)
    ∧ saveLetter id ⟨1, 1, [0]⟩ ≠ saveLetter id ⟨1, 1, [255]⟩ :=
  ⟨Function.injective_id,
   (encode_deterministic_and_injective id Function.injective_id ⟨1, 1, [0]⟩ ⟨1, 1, [255]⟩
     (by decide) (by decide) rfl rfl (by decide) (by decide) ⟨0, by decide⟩).2⟩

/-- C2 (amended): for every segmentation yielding exactly 7 raw letter
boxes, the 7th (rightmost) letter is merged with the 1st (leftmost) letter
by horizontal concatenation with the 7th first, the original 1st letter is
discarded, the final glyph count is 6, and the merged glyph occupies
position 6 (the last position) of the output sequence. -/
theorem segment_seven_merges_into_last_position (a b c d e f g : Img) :
    findLettersFromRaw [a, b, c, d, e, f, g]
        = [cutTheWhite b, cutTheWhite c, cutTheWhite d, cutTheWhite e, cutTheWhite f,
           cutTheWhite (mergeHorizontally g a)]
    ∧ (findLettersFromRaw [a, b, c, d, e, f, g]).length = 6
    ∧ (findLettersFromRaw [a, b, c, d, e, f, g]).getD 5 blankImg
        = cutTheWhite (mergeHorizontally g a) :=
  ⟨rfl, rfl, rfl⟩

/-- Counterexample to C2 as stated: on a concrete segmentation with exactly
7 raw letters, the merged glyph is not at position 1 of the output (index
0); it is at position 6 (index 5). -/
theorem segment_seven_position_one_counterexample :
    (findLettersFromRaw [⟨1,1,[0]⟩, ⟨2,1,[0,0]⟩, ⟨3,1,[0,0,0]⟩, ⟨4,1,[0,0,0,0]⟩,
        ⟨5,1,[0,0,0,0,0]⟩, ⟨6,1,[0,0,0,0,0,0]⟩, ⟨7,1,[0,0,0,0,0,0,0]⟩]).getD 0 blankImg
      ≠ cutTheWhite (mergeHorizontally ⟨7,1,[0,0,0,0,0,0,0]⟩ ⟨1,1,[0]⟩)
    ∧ (findLettersFromRaw [⟨1,1,[0]⟩, ⟨2,1,[0,0]⟩, ⟨3,1,[0,0,0]⟩, ⟨4,1,[0,0,0,0]⟩,
        ⟨5,1,[0,0,0,0,0]⟩, ⟨6,1,[0,0,0,0,0,0]⟩, ⟨7,1,[0,0,0,0,0,0,0]⟩]).getD 5 blankImg
      = cutTheWhite (mergeHorizontally ⟨7,1,[0,0,0,0,0,0,0]⟩ ⟨1,1,[0]⟩) := by
  decide

lemma fallbackCond_true_of (letters : List Img)
    (h : (letters.length = 6 ∧ (letters.headD blankImg).width < MINIMUM_LETTER_LENGTH)
       ∨ (letters.length ≠ 6 ∧ letters.length ≠ 7)) :
    fallbackCond letters = true := by
  rcases h with ⟨h6, hw⟩ | ⟨h6, h7⟩
  · have e6 : (letters.length == 6) = true := by simp [h6]
    have ew : decide ((letters.headD blankImg).width < MINIMUM_LETTER_LENGTH) = true :=
      decide_eq_true hw
    simp only [fallbackCond]
    rw [e6, ew]
    rfl
  · have e6 : (letters.length != 6) = true := by simp [h6]
    have e7 : (letters.length != 7) = true := by simp [h7]
    have e6' : (letters.length == 6) = false := by simp [h6]
    simp [fallbackCond, e6, e7, e6']

/-- C3 (amended): for every segmentation whose raw letter count is outside
{6, 7}, or whose count is 6 with the first letter's width below
`MINIMUM_LETTER_LENGTH` (14), the segmenter discards all letters and
returns exactly 6 placeholder glyphs, each of width 200 and height 70 with
every pixel equal to 0 — the foreground code, not background. -/
theorem segment_fallback_blank (letters : List Img)
    (h : (letters.length = 6 ∧ (letters.headD blankImg).width < MINIMUM_LETTER_LENGTH)
       ∨ (letters.length ≠ 6 ∧ letters.length ≠ 7)) :
    findLettersFromRaw letters = List.replicate 6 (newL 200 70)
    ∧ ∀ img ∈ findLettersFromRaw letters,
        img.width = 200 ∧ img.height = 70 ∧ ∀ p ∈ img.pixels, p = 0 := by
  have hfb := fallbackCond_true_of letters h
  have h1 : findLettersFromRaw letters = (List.replicate 6 (newL 200 70)).map cutTheWhite := by
    have hfall : applyFallback letters = List.replicate 6 (newL 200 70) := by
      rw [applyFallback, if_pos hfb]
    have hmerge : applySevenMerge (List.replicate 6 (newL 200 70))
        = List.replicate 6 (newL 200 70) := by
      rw [applySevenMerge, if_neg (by simp)]
    rw [findLettersFromRaw, hfall, hmerge]
  have h2 : (List.replicate 6 (newL 200 70)).map cutTheWhite
      = List.replicate 6 (newL 200 70) := by
    rw [List.map_replicate, cutTheWhite_newL 200 70 (by norm_num) (by norm_num)]
  rw [h1, h2]
  refine ⟨rfl, fun img hm => ?_⟩
  rw [List.eq_of_mem_replicate hm]
  refine ⟨rfl, rfl, fun p hp => ?_⟩
  simpa [newL] using List.eq_of_mem_replicate hp

/-- Witness for C3 (amended) at the empty segmentation (0 raw boxes). -/
theorem segment_fallback_blank_witness :
    ([] : List Img).length ≠ 6 ∧ ([] : List Img).length ≠ 7
    ∧ (findLettersFromRaw [] = List.replicate 6 (newL 200 70)
       ∧ ∀ img ∈ findLettersFromRaw [],
           img.width = 200 ∧ img.height = 70 ∧ ∀ p ∈ img.pixels, p = 0) :=
  ⟨by decide, by decide, segment_fallback_blank [] (Or.inr ⟨by decide, by decide⟩)⟩

/-- Counterexample to C3 as stated: at the concrete empty segmentation the
claim demands every placeholder pixel be background (255), but the
placeholders are all-zero (foreground). -/
theorem segment_fallback_background_counterexample :
    ¬ ∀ img ∈ findLettersFromRaw [], ∀ p ∈ img.pixels, p = 255 := by
  rw [findLettersFromRaw_nil]
  intro hall
  have h0 : (0 : Nat) = 255 :=
    hall (newL 200 70) (List.mem_replicate.2 ⟨by norm_num, rfl⟩) 0
      (List.mem_replicate.2 ⟨by norm_num, rfl⟩)
  exact absurd h0 (by norm_num)

lemma translateAux_false_short (al : List String) (co : String → List String)
    (bad : String) (post : List String) (hbad : matchLetter al co bad = none) :
    ∀ (pre : List String), (∀ s ∈ pre, (matchLetter al co s).isSome = true) →
      ∀ (acc ev : List String),
        translateAux false al co (pre ++ bad :: post) acc ev
          = ("Not solved", ev.reverse ++ (pre ++ [bad])) := by
  intro pre
  induction pre with
  | nil =>
    intro _ acc ev
    simp [translateAux, hbad]
  | cons s pre ih =>
    intro hpre acc ev
    have hs : (matchLetter al co s).isSome = true := hpre s (List.mem_cons_self s pre)
    rcases Option.isSome_iff_exists.1 hs with ⟨l, hl⟩
    simp only [List.cons_append, translateAux, hl, List.append_eq]
    rw [ih (fun x hx => hpre x (List.mem_cons_of_mem s hx)) (l :: acc) (s :: ev)]
    simp

/-- C4: with `devmode` false, the first unresolved glyph makes the solve
return the sentinel "Not solved", and no position after the first
unresolved one is evaluated against the corpus: the evaluated positions are
exactly the resolved prefix plus the first unresolved one. -/
theorem translate_false_short_circuits (al : List String) (co : String → List String)
    (pre : List String) (bad : String) (post : List String)
    (hpre : ∀ s ∈ pre, (matchLetter al co s).isSome = true)
    (hbad : matchLetter al co bad = none) :
    translateResult false al co (pre ++ bad :: post) = "Not solved"
    ∧ translateEvaluated false al co (pre ++ bad :: post) = pre ++ [bad] := by
  have h := translateAux_false_short al co bad post hbad pre hpre [] []
  constructor
  · show (translateAux false al co (pre ++ bad :: post) [] []).1 = "Not solved"
    rw [h]
  · show (translateAux false al co (pre ++ bad :: post) [] []).2 = pre ++ [bad]
    rw [h]
    simp

/-- Witness for C4: the second of three signatures is unresolved, the solve
returns the sentinel and evaluates only the first two positions. -/
theorem translate_false_witness :
    (∀ s ∈ ["sigA"], (matchLetter ["a"] (fun _ => ["sigA"]) s).isSome = true)
    ∧ matchLetter ["a"] (fun _ => ["sigA"]) "zz" = none
    ∧ translateResult false ["a"] (fun _ => ["sigA"]) (["sigA"] ++ "zz" :: ["sigA"])
        = "Not solved"
    ∧ translateEvaluated false ["a"] (fun _ => ["sigA"]) (["sigA"] ++ "zz" :: ["sigA"])
        = ["sigA"] ++ ["zz"] :=
  ⟨by decide, by decide,
   (translate_false_short_circuits ["a"] (fun _ => ["sigA"]) ["sigA"] "zz" ["sigA"]
     (by decide) (by decide)).1,
   (translate_false_short_circuits ["a"] (fun _ => ["sigA"]) ["sigA"] "zz" ["sigA"]
     (by decide) (by decide)).2⟩

/-- The per-position output with `devmode` true: the first matching symbol,
or a dash when the glyph is unresolved. -/
def resolveOrDash (al : List String) (co : String → List String) (s : String) : String :=
  (matchLetter al co s).getD "-"

lemma translateAux_true_join (al : List String) (co : String → List String) :
    ∀ (sigs acc ev : List String),
      translateAux true al co sigs acc ev
        = (String.join (acc.reverse ++ sigs.map (resolveOrDash al co)),
           ev.reverse ++ sigs) := by
  intro sigs
  induction sigs with
  | nil =>
    intro acc ev
    simp [translateAux]
  | cons s rest ih =>
    intro acc ev
    rcases hm : matchLetter al co s with _ | l
    · simp only [translateAux, hm]
      rw [if_true, ih ("-" :: acc) (s :: ev)]
      simp [resolveOrDash, hm]
    · simp only [translateAux, hm]
      rw [ih (l :: acc) (s :: ev)]
      simp [resolveOrDash, hm]

lemma join_six (a b c d e f : String) :
    String.join [a, b, c, d, e, f] = a ++ b ++ c ++ d ++ e ++ f := by
  simp [String.join]

/-- C5: with `devmode` true, all 6 positions are evaluated regardless of
individual failures, and the result is the 6-character concatenation in
position order of each position's resolved symbol, with a dash exactly at
each unresolved position. -/
theorem translate_true_all_positions (al : List String) (co : String → List String)
    (s1 s2 s3 s4 s5 s6 : String)
    (hone : ∀ l ∈ al, l.length = 1) (hnd : "-" ∉ al) :
    translateResult true al co [s1, s2, s3, s4, s5, s6]
        = resolveOrDash al co s1 ++ resolveOrDash al co s2 ++ resolveOrDash al co s3
          ++ resolveOrDash al co s4 ++ resolveOrDash al co s5 ++ resolveOrDash al co s6
    ∧ (translateResult true al co [s1, s2, s3, s4, s5, s6]).length = 6
    ∧ (∀ s ∈ [s1, s2, s3, s4, s5, s6],
        (resolveOrDash al co s = "-" ↔ matchLetter al co s = none))
    ∧ translateEvaluated true al co [s1, s2, s3, s4, s5, s6] = [s1, s2, s3, s4, s5, s6] := by
  have hj := translateAux_true_join al co [s1, s2, s3, s4, s5, s6] [] []
  have hres : translateResult true al co [s1, s2, s3, s4, s5, s6]
      = String.join [resolveOrDash al co s1, resolveOrDash al co s2, resolveOrDash al co s3,
          resolveOrDash al co s4, resolveOrDash al co s5, resolveOrDash al co s6] := by
    show (translateAux true al co [s1, s2, s3, s4, s5, s6] [] []).1 = _
    rw [hj]
    rfl
  have hr1 : ∀ s, (resolveOrDash al co s).length = 1 := by
    intro s
    rcases hm : matchLetter al co s with _ | l
    · simp only [resolveOrDash, hm, Option.getD_none]
      decide
    · have hmem : l ∈ al := List.mem_of_find?_eq_some hm
      simp [resolveOrDash, hm, hone l hmem]
  refine ⟨by rw [hres, join_six], ?_, fun s _ => ?_, ?_⟩
  · rw [hres, join_six]
    simp [String.length_append, hr1]
  · constructor
    · intro hd
      rcases hm : matchLetter al co s with _ | l
      · rfl
      · have hmem : l ∈ al := List.mem_of_find?_eq_some hm
        rw [resolveOrDash, hm, Option.getD_some] at hd
        exact absurd (hd ▸ hmem) hnd
    · intro hm
      rw [resolveOrDash, hm]
      rfl
  · show (translateAux true al co [s1, s2, s3, s4, s5, s6] [] []).2 = _
    rw [hj]
    rfl

/-- Witness for C5: a solve with unresolved glyphs exactly at positions 3
and 5 produces the corresponding resolved-or-dash concatenation. -/
theorem translate_true_witness :
    (∀ l ∈ ["a", "b"], l.length = 1) ∧ "-" ∉ ["a", "b"]
    ∧ translateResult true ["a", "b"] (fun l => if l = "a" then ["A"] else ["B"])
        ["A", "B", "x", "A", "y", "B"] = "ab-a-b" :=
  ⟨by decide, by decide, by
    have h := (translate_true_all_positions ["a", "b"]
      (fun l => if l = "a" then ["A"] else ["B"]) "A" "B" "x" "A" "y" "B"
      (by decide) (by decide)).1
    rw [h]
    decide⟩

/-- Lexicographic comparison of character-code lists: the alphabetical
order on names, used only to state what "alphabetical" means. -/
def charListLe : List Char → List Char → Bool
  | [], _ => true
  | _ :: _, [] => false
  | x :: xs, y :: ys =>
    if x.toNat < y.toNat then true
    else if x.toNat = y.toNat then charListLe xs ys
    else false

/-- Alphabetical order on symbol names, on their character data. -/
def strLe (a b : String) : Bool := charListLe a.data b.data

lemma find?_first (p : String → Bool) (l : String) (post : List String) :
    ∀ pre : List String, (∀ m ∈ pre, p m = false) → p l = true →
      List.find? p (pre ++ l :: post) = some l := by
  intro pre
  induction pre with
  | nil =>
    intro _ hl
    simpa using List.find?_cons_of_pos post hl
  | cons a t ih =>
    intro hpre hl
    have ha : p a = false := hpre a (List.mem_cons_self a t)
    rw [List.cons_append, List.find?_cons_of_neg _ (by simp [ha])]
    exact ih (fun m hm => hpre m (List.mem_cons_of_mem a hm)) hl

/-- Counterexample to C6 as stated: `AmazonCaptcha.__init__` builds the
alphabet from `os.listdir` without sorting, so the matcher iterates the
listing order, not an alphabetical order. At the concrete listing
["b", "a"] — a legitimate directory-listing outcome — with both symbols'
signature sets containing the signature, the matcher returns "b", although
the distinct symbol "a" also matches and precedes "b" alphabetically; an
alphabetical iteration would have returned "a". -/
theorem matcher_listing_order_counterexample :
    matchLetter ["b", "a"] (fun _ => ["s"]) "s" = some "b"
    ∧ ((fun _ : String => ["s"]) "a").contains "s" = true
    ∧ "a" ∈ ["b", "a"]
    ∧ strLe "a" "b" = true
    ∧ "a" ≠ "b" := by
  refine ⟨by decide, by decide, by decide, by decide, by decide⟩

/-- C6 (amended): the matcher iterates the corpus's symbols in the fixed
order of the alphabet list as `__init__` constructed it from the
training-data directory listing (not necessarily alphabetical), returns
the first symbol in that order whose known-signature set contains the
signature, and yields no symbol (Unresolved) exactly when no symbol's set
contains it. -/
theorem matcher_first_match_in_listing_order (alphabet : List String)
    (co : String → List String) (s : String) :
    (∀ pre l post, alphabet = pre ++ l :: post →
        (∀ m ∈ pre, (co m).contains s = false) → (co l).contains s = true →
        matchLetter alphabet co s = some l)
    ∧ (matchLetter alphabet co s = none ↔
        ∀ l ∈ alphabet, (co l).contains s = false) := by
  refine ⟨fun pre l post heq hpre hl => ?_, ?_⟩
  · rw [matchLetter, heq]
    exact find?_first _ l post pre hpre hl
  · rw [matchLetter, List.find?_eq_none]
    constructor
    · intro h l hm
      have := h l hm
      simpa using this
    · intro h l hm hc
      rw [h l hm] at hc
      exact Bool.false_ne_true hc

/-- Witness for C6 (amended): on the listing ["b", "a"] the matcher skips
the non-matching "b" and returns "a", the first matching symbol in listing
order. -/
theorem matcher_listing_order_witness :
    ["b", "a"] = ["b"] ++ "a" :: ([] : List String)
    ∧ matchLetter ["b", "a"] (fun l => if l = "a" then ["s"] else ["t"]) "s" = some "a" :=
  ⟨by decide,
   (matcher_first_match_in_listing_order ["b", "a"]
     (fun l => if l = "a" then ["s"] else ["t"]) "s").1 ["b"] "a" []
     (by decide) (by decide) (by decide)⟩

/-- C8: `fromlink` raises the distinct content-type error (carrying the
declared content type) whenever the declared content type is outside the
allow-list, before constructing anything; when the content type is
allow-listed, it constructs the instance without raising. -/
theorem fromlink_content_type_guard (link ct : String) (content : Img) (dv : Bool) :
    (SUPPORTED_CONTENT_TYPES.contains ct = false →
      fromlink link ct content dv = Except.error ct)
    ∧ (SUPPORTED_CONTENT_TYPES.contains ct = true →
      fromlink link ct content dv = Except.ok (captchaInit content dv false)) := by
  constructor <;> intro h
  · rw [fromlink, if_pos h]
  · rw [fromlink, if_neg (by rw [h]; decide)]

/-- Witness for C8: a "text/html" response raises, an "image/jpeg" response
constructs the instance. -/
theorem fromlink_content_type_witness :
    fromlink "http://x" "text/html" blankImg false = Except.error "text/html"
    ∧ fromlink "http://x" "image/jpeg" blankImg false
        = Except.ok (captchaInit blankImg false false) :=
  ⟨(fromlink_content_type_guard "http://x" "text/html" blankImg false).1 (by decide),
   (fromlink_content_type_guard "http://x" "image/jpeg" blankImg false).2 (by decide)⟩

/-- C10: for every image link and every value of the `devmode` argument,
the instance `fromlink` returns has its `devmode` attribute equal to false,
because `cls(image_bytes_array, devmode)` passes `devmode` positionally
into the constructor's `image_link` parameter while the constructor's
`devmode` parameter keeps its default. -/
theorem fromlink_devmode_always_false (link ct : String) (content : Img) (dv : Bool)
    (st : CaptchaState) (h : fromlink link ct content dv = Except.ok st) :
    st.devmode = false := by
  unfold fromlink at h
  by_cases hct : SUPPORTED_CONTENT_TYPES.contains ct = false
  · rw [if_pos hct] at h
    exact absurd h (by simp)
  · rw [if_neg hct] at h
    rw [← Except.ok.inj h]
    rfl

/-- Witness for C10: fetching with `devmode := true` still yields an
instance whose `devmode` is false. -/
theorem fromlink_devmode_witness :
    fromlink "http://x" "image/jpeg" blankImg true
        = Except.ok (captchaInit blankImg true false)
    ∧ (captchaInit blankImg true false).devmode = false :=
  ⟨rfl,
   fromlink_devmode_always_false "http://x" "image/jpeg" blankImg true
     (captchaInit blankImg true false) rfl⟩

/-- C9 evidence: a concrete unsolved solve with logging enabled appends
only a newline ("\n") to the log path — not the caller-supplied image
reference — while a solved-or-unlogged solve appends nothing. The claim
that the appended record's content is the image reference does not hold of
the code (`f.write("\n")`), although the `solve` docstring promises stored
links. -/
theorem solve_unsolved_logs_only_newline :
    solve (fun _ _ => List.replicate 6 (0, 14)) id []
        (fun _ => []) ⟨⟨14, 1, List.replicate 14 0⟩, false⟩ true "not-solved-captcha.log"
      = ("Not solved", some ("not-solved-captcha.log", "\n"))
    ∧ solve (fun _ _ => List.replicate 6 (0, 14)) id []
        (fun _ => []) ⟨⟨14, 1, List.replicate 14 0⟩, false⟩ false "not-solved-captcha.log"
      = ("Not solved", none)
    ∧ "\n" ≠ "http://amazon.example/captcha.jpg" :=
  ⟨by decide, by decide, by decide⟩

example : monochrome ⟨2, 1, [1, 200]⟩ = ⟨2, 1, [0, 255]⟩ := by decide

example : cutTheWhite ⟨3, 2, [255, 255, 255, 255, 0, 255]⟩ = ⟨1, 1, [0]⟩ := by decide

example : mergeHorizontally ⟨2, 1, [0, 1]⟩ ⟨1, 1, [2]⟩ = ⟨3, 1, [0, 1, 2]⟩ := by decide

example :
    findLettersFromRaw [⟨1,1,[0]⟩, ⟨2,1,[0,0]⟩, ⟨3,1,[0,0,0]⟩, ⟨4,1,[0,0,0,0]⟩,
      ⟨5,1,[0,0,0,0,0]⟩, ⟨6,1,[0,0,0,0,0,0]⟩, ⟨7,1,[0,0,0,0,0,0,0]⟩]
      = [⟨2,1,[0,0]⟩, ⟨3,1,[0,0,0]⟩, ⟨4,1,[0,0,0,0]⟩, ⟨5,1,[0,0,0,0,0]⟩,
         ⟨6,1,[0,0,0,0,0,0]⟩, ⟨8,1,[0,0,0,0,0,0,0,0]⟩] := by decide
